import Mathlib

/-!
# Verification of the EnviDat S3 listing crawler and aggregation pipeline

Shallow embedding of `src/entrails.py`:
* the per-bucket paginated crawl loop `list_s3_bucket_to_csv` (filtering rules,
  pagination control, the no-progress guard, skip counters), and
* the aggregation step `cmd_visualize` (extension derivation `get_ext`,
  grouping by bucket and extension, the sunburst trees and sankey flows,
  optional top-N extension collapsing).

Python `Optional[str]` values are modelled as `Option String`; an XML element
text is modelled by `ElemText` where the distinction between an absent element
and an element with no text matters (only for `IsTruncated`, where the code
calls `.text.lower()` and would raise on a present-but-empty element).
Machine characters are ASCII in all inputs of interest; `Char.toLower` models
Python `str.lower` on that fragment.
-/

namespace Entrails

/-- Text content of one XML element as seen through `ElementTree`:
the element may be absent, present with no text (`elem.text is None`),
or present with text `s`.  (`ElementTree` never yields an empty-string text.) -/
inductive ElemText where
  | absent
  | noText
  | text (s : String)
deriving DecidableEq

/-- One `<Contents>` entry of a listing page, holding the Python values the
crawler obtains through `_safe_find_text` (and the nested `Owner` lookups):
`none` models Python `None` (element present with no text), `some s` a string
(`_safe_find_text` of an absent element yields `some ""`). -/
structure ContentsElem where
  key : Option String
  lastModified : Option String
  etag : Option String
  size : Option String
  storageClass : Option String
  ownerId : Option String
  ownerDisplayName : Option String
  typ : Option String
deriving DecidableEq

/-- One parsed listing page: the `Contents` entries in document order,
the `IsTruncated` element and the `NextMarker` element
(`nextMarker = none` models an absent element or one with no text). -/
structure Page where
  contents : List ContentsElem
  isTruncated : ElemText
  nextMarker : Option String
deriving DecidableEq

/-- One CSV row as written by `csv_writer.writerow` (the `csv` module writes
Python `None` as the empty string). -/
structure Row where
  bucket_url : String
  bucket_name : String
  key : String
  last_modified : String
  etag : String
  size : String
  storage_class : String
  owner_id : String
  owner_display_name : String
  type : String
deriving DecidableEq

/-- `str.lower`, restricted to ASCII characters. -/
def pyLower (s : String) : String :=
  String.mk (s.data.map Char.toLower)

/-- `key.lower() if isinstance(key, str) else ''` from the filtering rules. -/
def lowerKey (k : Option String) : String :=
  match k with
  | some s => pyLower s
  | none => ""

/-- The characters of `os.path.basename` on a POSIX path: everything after the
last `/` (`p[p.rfind('/')+1:]`). -/
def basenameChars (l : List Char) : List Char :=
  (l.reverse.takeWhile (fun c => c != '/')).reverse

/-- Extension part of `posixpath.splitext` applied to a *basename* (no `/`):
the suffix starting at the last `.`, provided some character strictly before
that dot is not itself a dot (leading dots of the basename never start an
extension); otherwise empty. -/
def splitextExt (l : List Char) : List Char :=
  match l.reverse.dropWhile (fun c => c != '.') with
  | [] => []
  | _ :: pre =>
    if pre.any (fun c => c != '.') then
      '.' :: (l.reverse.takeWhile (fun c => c != '.')).reverse
    else []

/-- Extension part of `os.path.splitext` on a general POSIX path: `splitext`
only looks for dots after the last separator, so it equals `splitextExt` of
the basename. -/
def pySplitextExt (l : List Char) : List Char :=
  splitextExt (basenameChars l)

/-- `ext = os.path.splitext(key if key is not None else '')[1]; ext.lower()`
from Rule 2 of the crawler. -/
def extOfKey (k : Option String) : String :=
  String.mk ((pySplitextExt (k.getD "").data).map Char.toLower)

/-- The candidate CSV row built from one `<Contents>` entry
(`csv_writer.writerow({...})`; `None` fields are written as `''`). -/
def mkRow (bucket_url bucket_name : String) (e : ContentsElem) : Row :=
  { bucket_url := bucket_url
    bucket_name := bucket_name
    key := e.key.getD ""
    last_modified := e.lastModified.getD ""
    etag := e.etag.getD ""
    size := e.size.getD ""
    storage_class := e.storageClass.getD ""
    owner_id := e.ownerId.getD ""
    owner_display_name := e.ownerDisplayName.getD ""
    type := e.typ.getD "" }

/-- Outcome of the filtering rules on one entry: Rule 1 (key contains
`envidat.1`), then Rule 2 (extension filter, `envidat-doi` bucket only),
else the row is written. -/
inductive EntryResult where
  | emit (r : Row)
  | skipEnvidat1
  | skipDoiMeta
deriving DecidableEq

/-- Python substring test `needle in hay`. -/
def pyContains (needle hay : String) : Bool :=
  decide (List.IsInfix needle.data hay.data)

/-- The per-entry body of the crawl loop: build the candidate record and apply
the two filtering rules in order, mirroring lines 158-198 of the source. -/
def processEntry (bucket_url bucket_name : String) (e : ContentsElem) : EntryResult :=
  if pyContains "envidat.1" (lowerKey e.key) then
    .skipEnvidat1
  else if bucket_name = "envidat-doi" then
    if extOfKey e.key ∈ ([".html", ".json", ".xml"] : List String) then
      .skipDoiMeta
    else .emit (mkRow bucket_url bucket_name e)
  else .emit (mkRow bucket_url bucket_name e)

/-- The rows written for one page of entries, in document order. -/
def pageRows (bucket_url bucket_name : String) (es : List ContentsElem) : List Row :=
  es.filterMap (fun e =>
    match processEntry bucket_url bucket_name e with
    | .emit r => some r
    | _ => none)

/-- Number of entries of a page counted by the `skipped_envidat1` counter. -/
def pageSkipA (bucket_url bucket_name : String) (es : List ContentsElem) : Nat :=
  es.countP (fun e =>
    match processEntry bucket_url bucket_name e with
    | .skipEnvidat1 => true
    | _ => false)

/-- Number of entries of a page counted by the `skipped_doi_meta` counter. -/
def pageSkipB (bucket_url bucket_name : String) (es : List ContentsElem) : Nat :=
  es.countP (fun e =>
    match processEntry bucket_url bucket_name e with
    | .skipDoiMeta => true
    | _ => false)

/-- `is_truncated = (is_truncated_tag is not None and
is_truncated_tag.text.lower() == 'true')`: `none` models the `AttributeError`
raised when the element is present with no text. -/
def computeTruncated : ElemText → Option Bool
  | .absent => some false
  | .noText => none
  | .text s => some (pyLower s == "true")

/-- Whether `next_marker_tag is not None and next_marker_tag.text` is truthy. -/
def nmUsable : Option String → Bool
  | some s => s != ""
  | none => false

/-- `marker = last_key.text if last_key is not None else None` for the last
entry's `Key` element.  In our entry model `some ""` encodes an absent `Key`
element (where the direct `find` yields `None`), so it maps to `none`. -/
def keyTextMarker (e : ContentsElem) : Option String :=
  match e.key with
  | some s => if s = "" then none else some s
  | none => none

/-- Next-cursor derivation for a truncated page (lines 209-220):
`some m` means "continue with marker `m`", `none` means the no-progress guard
fires (truncated, no usable `NextMarker`, zero entries). -/
def deriveNextMarker (page : Page) : Option (Option String) :=
  if nmUsable page.nextMarker then
    some page.nextMarker
  else
    match page.contents.getLast? with
    | some e => some (keyTextMarker e)
    | none => none

/-- The `marker` query parameter actually sent: `params['marker'] = marker`
only runs `if marker:` (non-`None` and non-empty). -/
def reqParam : Option String → Option String
  | some s => if s = "" then none else some s
  | none => none

/-- Mutable state of the per-bucket crawl loop. -/
structure CrawlState where
  marker : Option String
  pageCount : Nat
  rows : List Row
  skippedA : Nat
  skippedB : Nat
deriving DecidableEq

/-- Initial crawl state (`marker = None`, `page_count = 0`, empty counters). -/
def initState : CrawlState :=
  { marker := none, pageCount := 0, rows := [], skippedA := 0, skippedB := 0 }

/-- Why the crawl loop stopped. -/
inductive StopReason where
  | notTruncated
  | noProgress
  | maxPages
deriving DecidableEq

/-- Result of one iteration of the `while True` loop. -/
inductive StepRes where
  | next (s : CrawlState)
  | stop (s : CrawlState) (r : StopReason)
  | crash (s : CrawlState)
deriving DecidableEq

/-- State after the row-writing part of one loop iteration: append the
surviving rows, bump the two skip counters and the page count. -/
def afterPage (bucket_url bucket_name : String) (page : Page) (s : CrawlState) :
    CrawlState :=
  { s with
    rows := s.rows ++ pageRows bucket_url bucket_name page.contents
    skippedA := s.skippedA + pageSkipA bucket_url bucket_name page.contents
    skippedB := s.skippedB + pageSkipB bucket_url bucket_name page.contents
    pageCount := s.pageCount + 1 }

/-- One iteration of the crawl loop: fetch the page for the current marker
(`fetch i m` is the page the endpoint returns to the `i`-th request, issued
with marker parameter `m`), write the surviving rows, bump the page count,
then decide continuation exactly as lines 200-225 of the source do
(the `max_pages` comparison reads the already-incremented page count). -/
def step (fetch : Nat → Option String → Page) (bucket_url bucket_name : String)
    (maxPages : Option Nat) (s : CrawlState) : StepRes :=
  match computeTruncated (fetch s.pageCount (reqParam s.marker)).isTruncated with
  | none =>
    .crash (afterPage bucket_url bucket_name (fetch s.pageCount (reqParam s.marker)) s)
  | some false =>
    .stop (afterPage bucket_url bucket_name (fetch s.pageCount (reqParam s.marker)) s)
      .notTruncated
  | some true =>
    match deriveNextMarker (fetch s.pageCount (reqParam s.marker)) with
    | none =>
      .stop (afterPage bucket_url bucket_name (fetch s.pageCount (reqParam s.marker)) s)
        .noProgress
    | some m =>
      match maxPages with
      | some mp =>
        if s.pageCount + 1 ≥ mp then
          .stop
            { afterPage bucket_url bucket_name (fetch s.pageCount (reqParam s.marker)) s
              with marker := m } .maxPages
        else
          .next
            { afterPage bucket_url bucket_name (fetch s.pageCount (reqParam s.marker)) s
              with marker := m }
      | none =>
        .next
          { afterPage bucket_url bucket_name (fetch s.pageCount (reqParam s.marker)) s
            with marker := m }

/-- Terminal observation of a fuel-bounded run of the loop. -/
inductive Outcome where
  | finished (s : CrawlState) (r : StopReason)
  | crashed (s : CrawlState)
  | fuelOut (s : CrawlState)
deriving DecidableEq

/-- `true` iff the fuel ran out before the loop reached a terminal state. -/
def Outcome.isOut : Outcome → Bool
  | .fuelOut _ => true
  | _ => false

/-- Run the crawl loop for at most `fuel` iterations. -/
def crawlRun (fetch : Nat → Option String → Page) (bucket_url bucket_name : String)
    (maxPages : Option Nat) : Nat → CrawlState → Outcome
  | 0, s => .fuelOut s
  | Nat.succ f, s =>
    match step fetch bucket_url bucket_name maxPages s with
    | .next s2 => crawlRun fetch bucket_url bucket_name maxPages f s2
    | .stop s2 r => .finished s2 r
    | .crash s2 => .crashed s2

end Entrails

namespace Entrails

/-! ## Aggregation (`cmd_visualize`) -/

/-- `k.strip() == ''` for a string: every character is Python whitespace. -/
def pyStripIsEmpty (s : String) : Bool :=
  s.data.all (fun c => [' ', '\t', '\n', '\r', '\x0b', '\x0c'].contains c)

/-- `get_ext` from `cmd_visualize`: `<no_ext>` for a missing (`NaN`) or
blank key, `<no_ext>` when the basename has no dot, otherwise the lower-cased
`splitext` suffix of the basename with `''` falling back to `<no_ext>`. -/
def getExt (k : Option String) : String :=
  match k with
  | none => "<no_ext>"
  | some s =>
    if pyStripIsEmpty s then "<no_ext>"
    else
      let base := basenameChars s.data
      if '.' ∈ base then
        let e := (splitextExt base).map Char.toLower
        if e = [] then "<no_ext>" else String.mk e
      else "<no_ext>"

/-- One row of the CSV as re-read by `pd.read_csv` for visualization: only the
columns the aggregation touches; `none` models a `NaN` cell (empty CSV field). -/
structure CsvRecord where
  bucket_name : String
  key : Option String
  size : Option String
deriving DecidableEq

/-- Value of a nonempty all-digit character run. -/
def digitsVal (l : List Char) : Nat :=
  l.foldl (fun n c => n * 10 + (c.toNat - 48)) 0

/-- Parse a nonempty run of decimal digits. -/
def parseIntDigits (l : List Char) : Option Nat :=
  if l ≠ [] ∧ l.all Char.isDigit then some (digitsVal l) else none

/-- `pd.to_numeric(x, errors='coerce').fillna(0).astype('int64')` on one cell,
modelled on optionally-signed decimal integer literals (the shape of every S3
`Size` value); any other string coerces to `NaN` and is filled with 0. -/
def pyToNumericInt (s : String) : Int :=
  match s.data with
  | '-' :: rest =>
    match parseIntDigits rest with
    | some n => -(n : Int)
    | none => 0
  | '+' :: rest =>
    match parseIntDigits rest with
    | some n => (n : Int)
    | none => 0
  | l =>
    match parseIntDigits l with
    | some n => (n : Int)
    | none => 0

/-- The `size_bytes` column: a missing cell (`NaN`) becomes 0, any other cell
is coerced leniently. -/
def parseSize : Option String → Int
  | none => 0
  | some s => pyToNumericInt s

/-- The distinct keys of a list, first occurrence first (the groupby key set;
`pandas` additionally sorts the keys, which no claim depends on). -/
def dkeys {κ : Type} [DecidableEq κ] : List κ → List κ
  | [] => []
  | k :: t => k :: (dkeys t).filter (fun x => x ≠ k)

/-- `groupby(f)[w].sum()`: one `(key, summed weight)` pair per distinct key. -/
def groupSum {α κ M : Type} [DecidableEq κ] [AddCommMonoid M]
    (f : α → κ) (w : α → M) (l : List α) : List (κ × M) :=
  (dkeys (l.map f)).map (fun k => (k, ((l.filter (fun a => f a = k)).map w).sum))

/-- Insert into a list kept in descending order of second component. -/
def orderedInsertDesc {M : Type} [LinearOrder M] (x : String × M) :
    List (String × M) → List (String × M)
  | [] => [x]
  | y :: t => if y.2 ≤ x.2 then x :: y :: t else y :: orderedInsertDesc x t

/-- `sort_values(ascending=False)` on the summed column. -/
def sortDescBySnd {M : Type} [LinearOrder M] : List (String × M) → List (String × M)
  | [] => []
  | x :: t => orderedInsertDesc x (sortDescBySnd t)

/-- Grouped per-extension record counts (`df.groupby('extension').size()`). -/
def extCounts (records : List CsvRecord) : List (String × Nat) :=
  groupSum (fun r => getExt r.key) (fun _ => (1 : Nat)) records

/-- Grouped per-extension byte sums (`df.groupby('extension')['size_bytes'].sum()`). -/
def extBytes (records : List CsvRecord) : List (String × Int) :=
  groupSum (fun r => getExt r.key) (fun r => parseSize r.size) records

/-- The `top_exts` set: extensions of the `n` first rows of the per-extension
counts sorted by count descending. -/
def topExts (records : List CsvRecord) (n : Nat) : List String :=
  ((sortDescBySnd (extCounts records)).take n).map Prod.fst

/-- `df.groupby(['bucket_name', 'extension']).size()` as `((bucket, ext), count)`. -/
def dfCountsBase (records : List CsvRecord) : List ((String × String) × Nat) :=
  groupSum (fun r => (r.bucket_name, getExt r.key)) (fun _ => (1 : Nat)) records

/-- Relabel extensions outside `top` to `<other>` and regroup, summing counts
(lines 289-294 of the source). -/
def collapseCounts (dfc : List ((String × String) × Nat)) (top : List String) :
    List ((String × String) × Nat) :=
  groupSum Prod.fst Prod.snd
    (dfc.map (fun p => if p.1.2 ∈ top then p else ((p.1.1, "<other>"), p.2)))

/-- The `(bucket, extension)` count table feeding the count sunburst, with the
optional top-N collapsing applied. -/
def dfCountsOf (records : List CsvRecord) (topN : Option Nat) :
    List ((String × String) × Nat) :=
  match topN with
  | none => dfCountsBase records
  | some n => collapseCounts (dfCountsBase records) (topExts records n)

/-- `df.groupby(['bucket_name', 'extension'])['size_bytes'].sum()`. -/
def dfBytesOf (records : List CsvRecord) : List ((String × String) × Int) :=
  groupSum (fun r => (r.bucket_name, getExt r.key)) (fun r => parseSize r.size) records

/-- One sunburst node (`ids`, `labels`, `parents`, `values` columns). -/
structure SNode (M : Type) where
  id : String
  label : String
  parent : String
  value : M
deriving DecidableEq

/-- Per-bucket totals of a `(bucket, extension)` table
(`df_counts.groupby('bucket_name')[...].sum()`). -/
def bucketsOf {M : Type} [AddCommMonoid M] (dfc : List ((String × String) × M)) :
    List (String × M) :=
  groupSum (fun p => p.1.1) Prod.snd dfc

/-- The sunburst node list: root, then one node per bucket, then one node per
`(bucket, extension)` row, with the ids and parents the source builds. -/
def treeNodes {M : Type} [AddCommMonoid M] (rootLabel : String)
    (dfc : List ((String × String) × M)) : List (SNode M) :=
  { id := "root", label := rootLabel, parent := "", value := (dfc.map Prod.snd).sum } ::
    ((bucketsOf dfc).map
        (fun p => { id := "bucket:" ++ p.1, label := p.1, parent := "root", value := p.2 }) ++
      dfc.map (fun p =>
        { id := p.1.1 ++ "|" ++ p.1.2, label := p.1.2,
          parent := "bucket:" ++ p.1.1, value := p.2 }))

/-- Sum of the values of the nodes whose parent id is `pid`. -/
def childSum {M : Type} [AddCommMonoid M] (nodes : List (SNode M)) (pid : String) : M :=
  ((nodes.filter (fun n => n.parent = pid)).map SNode.value).sum

/-- The CountTree (count sunburst); only this artifact sees the collapsed table. -/
def countTreeNodes (records : List CsvRecord) (topN : Option Nat) : List (SNode Nat) :=
  treeNodes "All files" (dfCountsOf records topN)

/-- The ByteTree (byte sunburst), built from the raw records. -/
def byteTreeNodes (records : List CsvRecord) : List (SNode Int) :=
  treeNodes "All bytes" (dfBytesOf records)

/-- A sankey: node labels plus parallel edge columns (source, target, value). -/
structure Sankey (M : Type) where
  labels : List String
  source : List Nat
  target : List Nat
  values : List M
deriving DecidableEq

/-- The CountFlow sankey (`Total files` → one node per extension), built from
the raw records sorted by count descending. -/
def countFlow (records : List CsvRecord) : Sankey Nat :=
  let totals := sortDescBySnd (extCounts records)
  { labels := "Total files" :: totals.map Prod.fst
    source := List.replicate totals.length 0
    target := (List.range totals.length).map (fun i => 1 + i)
    values := totals.map Prod.snd }

/-- The ByteFlow sankey (`Total bytes` → one node per extension). -/
def byteFlow (records : List CsvRecord) : Sankey Int :=
  let totals := sortDescBySnd (extBytes records)
  { labels := "Total bytes" :: totals.map Prod.fst
    source := List.replicate totals.length 0
    target := (List.range totals.length).map (fun i => 1 + i)
    values := totals.map Prod.snd }

/-- The four artifacts `cmd_visualize` produces from one CSV, in production
order; the `top_n_extensions` argument is consumed only by the count table. -/
def visualizeArtifacts (records : List CsvRecord) (topN : Option Nat) :
    List (SNode Nat) × Sankey Nat × Sankey Int × List (SNode Int) :=
  (countTreeNodes records topN, countFlow records, byteFlow records, byteTreeNodes records)

end Entrails

namespace Entrails

/-! ## Spec-side definitions for the extension-label claims -/

/-- The suffix of a basename starting at its last `.` (the spec's phrase
"the suffix starting at the last `.` of the basename"). -/
def specSuffixFromLastDot (l : List Char) : List Char :=
  '.' :: (l.reverse.takeWhile (fun c => c != '.')).reverse

/-- The characters of a basename strictly before its last `.`. -/
def specBeforeLastDot (l : List Char) : List Char :=
  match l.reverse.dropWhile (fun c => c != '.') with
  | [] => []
  | _ :: pre => pre.reverse

/-- Follows the claim's words: "if the key is empty or missing, or the
basename contains no `.` , the label is `<no_ext>`; otherwise the label is the
lower-cased suffix starting at the last `.` of the basename". -/
def specExtClaim : Option String → String
  | none => "<no_ext>"
  | some s =>
    if s = "" then "<no_ext>"
    else
      let base := basenameChars s.data
      if '.' ∈ base then String.mk ((specSuffixFromLastDot base).map Char.toLower)
      else "<no_ext>"

/-- Follows the amended claim: as `specExtClaim`, except that a blank key also
yields `<no_ext>` and the suffix only counts when some character strictly
before the basename's last `.` is not itself a dot (so dotfiles such as
`.bashrc` yield `<no_ext>`). -/
def specExtAmended : Option String → String
  | none => "<no_ext>"
  | some s =>
    if pyStripIsEmpty s then "<no_ext>"
    else
      let base := basenameChars s.data
      if '.' ∈ base ∧ (specBeforeLastDot base).any (fun c => c != '.') then
        String.mk ((specSuffixFromLastDot base).map Char.toLower)
      else "<no_ext>"

/-! ## Helper lemmas -/

theorem dropWhile_ne_dot_ne_nil {l : List Char} (h : '.' ∈ l) :
    l.dropWhile (fun c => c != '.') ≠ [] := by
  induction l with
  | nil => cases h
  | cons c t ih =>
    by_cases hc : c = '.'
    · subst hc; simp [List.dropWhile]
    · have hct : '.' ∈ t := by
        rcases List.mem_cons.mp h with h1 | h1
        · exact absurd h1.symm hc
        · exact h1
      have hb : (c != '.') = true := by simp [bne_iff_ne, hc]
      simpa [List.dropWhile, hb] using ih hct

theorem any_reverse_eq (l : List Char) (p : Char → Bool) :
    l.reverse.any p = l.any p := by
  simp [List.any_eq_true]

/-- `get_ext` agrees everywhere with the amended spec description. -/
theorem getExt_eq_specAmended (k : Option String) : getExt k = specExtAmended k := by
  cases k with
  | none => rfl
  | some s =>
    unfold getExt specExtAmended
    by_cases hstrip : pyStripIsEmpty s
    · simp [hstrip]
    · simp only [hstrip, Bool.false_eq_true, if_false]
      by_cases hdot : '.' ∈ basenameChars s.data
      · cases hdw : (basenameChars s.data).reverse.dropWhile (fun c => c != '.') with
        | nil =>
          exact absurd hdw (dropWhile_ne_dot_ne_nil (List.mem_reverse.mpr hdot))
        | cons c pre =>
          have hbefore : specBeforeLastDot (basenameChars s.data) = pre.reverse := by
            unfold specBeforeLastDot; rw [hdw]
          by_cases hpre : pre.any (fun c => c != '.') = true
          · have hany : (specBeforeLastDot (basenameChars s.data)).any
                (fun c => c != '.') = true := by
              rw [hbefore, any_reverse_eq]; exact hpre
            have hsplit : splitextExt (basenameChars s.data) =
                specSuffixFromLastDot (basenameChars s.data) := by
              unfold splitextExt specSuffixFromLastDot; rw [hdw]; simp [hpre]
            simp [hdot, hany, hsplit, specSuffixFromLastDot]
          · have hany : (specBeforeLastDot (basenameChars s.data)).any
                (fun c => c != '.') = false := by
              rw [hbefore, any_reverse_eq]; simpa using hpre
            have hsplit : splitextExt (basenameChars s.data) = [] := by
              unfold splitextExt; rw [hdw]; simp [hpre]
            simp [hdot, hany, hsplit]
      · simp [hdot]

/-! ## Claims C3, C4, C9, C6 -/

/-- C3: for every bucket URL and bucket name and every listing entry whose
lower-cased key contains the substring `envidat.1`, the crawler discards the
entry (Rule 1) and emits no row for it. -/
theorem ruleA_discards_globally :
    ∀ (url name : String) (e : ContentsElem),
      pyContains "envidat.1" (lowerKey e.key) = true →
      processEntry url name e = .skipEnvidat1 ∧ pageRows url name [e] = [] := by
  intro url name e h
  refine ⟨?_, ?_⟩
  · simp [processEntry, h]
  · simp [pageRows, processEntry, h]

/-- Entry with key `x/envidat.1.2.3/data.csv` (the claim's example). -/
def envidatEntry : ContentsElem :=
  { key := some "x/envidat.1.2.3/data.csv", lastModified := some "2024-01-01",
    etag := some "e", size := some "10", storageClass := some "STANDARD",
    ownerId := some "", ownerDisplayName := some "", typ := some "" }

/-- Witness for C3: the example key is discarded from a non-`envidat-doi` bucket. -/
theorem ruleA_discards_globally_witness :
    processEntry "https://u/envicloud/" "envicloud" envidatEntry = .skipEnvidat1 ∧
      pageRows "https://u/envicloud/" "envicloud" [envidatEntry] = [] :=
  ruleA_discards_globally "https://u/envicloud/" "envicloud" envidatEntry (by decide)

/-- C4: an entry surviving Rule 1 whose key extension is `.html`, `.json` or
`.xml` (case-insensitively) is discarded iff the bucket name is `envidat-doi`;
for any other bucket name it is emitted verbatim. -/
theorem ruleB_doi_only :
    ∀ (url name : String) (e : ContentsElem),
      pyContains "envidat.1" (lowerKey e.key) = false →
      extOfKey e.key ∈ ([".html", ".json", ".xml"] : List String) →
      (processEntry url name e = .skipDoiMeta ↔ name = "envidat-doi") ∧
        (name ≠ "envidat-doi" → processEntry url name e = .emit (mkRow url name e)) := by
  intro url name e h1 h2
  by_cases hn : name = "envidat-doi"
  · subst hn; simp [processEntry, h1, h2]
  · simp [processEntry, h1, h2, hn]

/-- Entry with key `meta.json` (the claim's example). -/
def metaEntry : ContentsElem :=
  { key := some "meta.json", lastModified := some "2024-01-01",
    etag := some "e", size := some "3", storageClass := some "STANDARD",
    ownerId := some "", ownerDisplayName := some "", typ := some "" }

/-- Witness for C4: `meta.json` is discarded from `envidat-doi` and kept
verbatim in `envicloud`. -/
theorem ruleB_doi_only_witness :
    processEntry "u" "envidat-doi" metaEntry = .skipDoiMeta ∧
      processEntry "u" "envicloud" metaEntry = .emit (mkRow "u" "envicloud" metaEntry) :=
  ⟨(ruleB_doi_only "u" "envidat-doi" metaEntry (by decide) (by decide)).1.mpr rfl,
    (ruleB_doi_only "u" "envicloud" metaEntry (by decide) (by decide)).2 (by decide)⟩

/-- Entry whose `Size` element is missing (`_safe_find_text` yields `''`). -/
def noSizeEntry : ContentsElem :=
  { key := some "a/file.bin", lastModified := some "2024-01-01",
    etag := some "e", size := some "", storageClass := some "STANDARD",
    ownerId := some "", ownerDisplayName := some "", typ := some "" }

/-- C9 counterexample: an entry with a missing `Size` element is emitted with
the raw empty string as its size, not with the normalized integer `0`. -/
theorem size_not_normalized_counterexample :
    processEntry "u" "b" noSizeEntry = .emit (mkRow "u" "b" noSizeEntry) ∧
      (mkRow "u" "b" noSizeEntry).size = "" ∧ ("" : String) ≠ "0" := by
  decide

/-- C9 amended: every emitted row carries the raw `Size` text (empty when the
element is missing); normalization happens only when the aggregation parses
the size column, where a missing or unparsable cell becomes 0. -/
theorem size_raw_at_creation :
    (∀ (url name : String) (e : ContentsElem) (r : Row),
        processEntry url name e = .emit r → r.size = e.size.getD "") ∧
      parseSize none = 0 ∧ parseSize (some "") = 0 ∧ parseSize (some "12x") = 0 := by
  refine ⟨?_, by decide, by decide, by decide⟩
  intro url name e r h
  unfold processEntry at h
  split at h
  · exact EntryResult.noConfusion h
  · split at h
    · split at h
      · exact EntryResult.noConfusion h
      · cases h; rfl
    · cases h; rfl

/-- Witness for C9 amended: the raw-size equation at the concrete entry. -/
theorem size_raw_at_creation_witness :
    (mkRow "u" "b" noSizeEntry).size = noSizeEntry.size.getD "" :=
  size_raw_at_creation.1 "u" "b" noSizeEntry (mkRow "u" "b" noSizeEntry) (by decide)

/-- C6 counterexample: for the dotfile key `.bashrc` the code yields
`<no_ext>` while the claim's rule ("the lower-cased suffix starting at the
last `.` of the basename") yields `.bashrc`. -/
theorem getExt_dotfile_counterexample :
    getExt (some ".bashrc") = "<no_ext>" ∧
      specExtClaim (some ".bashrc") = ".bashrc" ∧
      getExt (some ".bashrc") ≠ specExtClaim (some ".bashrc") := by
  decide

/-- C6 amended: `get_ext` matches the amended description (blank or missing
key, dotless basename, or a basename whose characters before the last dot are
all dots give `<no_ext>`; otherwise the lower-cased suffix from the last dot),
and the claim's examples hold. -/
theorem getExt_characterization :
    (∀ k, getExt k = specExtAmended k) ∧
      getExt (some "data/readme") = "<no_ext>" ∧
      getExt (some "a/b.c.TAR.GZ") = ".gz" ∧
      getExt none = "<no_ext>" ∧
      getExt (some "") = "<no_ext>" :=
  ⟨getExt_eq_specAmended, by decide, by decide, rfl, by decide⟩

end Entrails

namespace Entrails

/-! ## Crawl-loop lemmas and claims C2, C7, C8, C10 -/

theorem computeTruncated_true_elim {x : ElemText}
    (h : computeTruncated x = some true) : ∃ t, x = .text t ∧ pyLower t = "true" := by
  cases x with
  | absent => simp [computeTruncated] at h
  | noText => simp [computeTruncated] at h
  | text t =>
    refine ⟨t, rfl, ?_⟩
    have hb : (pyLower t == "true") = true := by
      simpa [computeTruncated] using h
    exact eq_of_beq hb

/-- Everything a `.next` step tells us: the page count was bumped, the page was
truncated, the new marker is the derived cursor, the rows grew by the page's
surviving rows, and a configured page ceiling was not yet reached. -/
theorem step_next_spec {fetch : Nat → Option String → Page} {url name : String}
    {mp : Option Nat} {s s2 : CrawlState}
    (h : step fetch url name mp s = .next s2) :
    s2.pageCount = s.pageCount + 1 ∧
      computeTruncated (fetch s.pageCount (reqParam s.marker)).isTruncated = some true ∧
      deriveNextMarker (fetch s.pageCount (reqParam s.marker)) = some s2.marker ∧
      s2.rows = s.rows ++ pageRows url name (fetch s.pageCount (reqParam s.marker)).contents ∧
      ∀ m, mp = some m → s.pageCount + 1 < m := by
  unfold step at h
  split at h
  · exact StepRes.noConfusion h
  · exact StepRes.noConfusion h
  · rename_i htr
    split at h
    · exact StepRes.noConfusion h
    · rename_i m hder
      split at h
      · split at h
        · exact StepRes.noConfusion h
        · rename_i hlt
          cases h
          refine ⟨rfl, htr, by rw [hder], rfl, ?_⟩
          intro m' hm'
          cases hm'
          omega
      · cases h
        refine ⟨rfl, htr, by rw [hder], rfl, ?_⟩
        intro m' hm'
        exact Option.noConfusion hm'

theorem crawl_term_bound (fetch : Nat → Option String → Page) (url name : String)
    (m : Nat) :
    ∀ (f : Nat) (s : CrawlState), m ≤ s.pageCount + f →
      (crawlRun fetch url name (some m) (f + 1) s).isOut = false := by
  intro f
  induction f with
  | zero =>
    intro s hs
    cases hstep : step fetch url name (some m) s with
    | next s2 =>
      have := (step_next_spec hstep).2.2.2.2 m rfl
      omega
    | stop s2 r => simp [crawlRun, hstep, Outcome.isOut]
    | crash s2 => simp [crawlRun, hstep, Outcome.isOut]
  | succ f ih =>
    intro s hs
    cases hstep : step fetch url name (some m) s with
    | next s2 =>
      have h1 := (step_next_spec hstep).1
      have h2 : m ≤ s2.pageCount + f := by omega
      simpa [crawlRun, hstep] using ih s2 h2
    | stop s2 r => simp [crawlRun, hstep, Outcome.isOut]
    | crash s2 => simp [crawlRun, hstep, Outcome.isOut]

/-- C2 amended: with a configured maximum page count `m`, the per-bucket crawl
loop reaches a terminal state within `m + 1` iterations for every fetcher. -/
theorem crawl_terminates_with_max_pages :
    ∀ (fetch : Nat → Option String → Page) (url name : String) (m : Nat),
      (crawlRun fetch url name (some m) (m + 1) initState).isOut = false := by
  intro fetch url name m
  exact crawl_term_bound fetch url name m m initState (by simp [initState])

/-- An entry with key `a`, used by the always-truncated fetcher. -/
def loopEntry : ContentsElem :=
  { key := some "a", lastModified := some "", etag := some "", size := some "1",
    storageClass := some "", ownerId := some "", ownerDisplayName := some "",
    typ := some "" }

/-- A page that is truncated, has one entry, and no `NextMarker`: the fallback
cursor `a` is derivable, so the loop continues. -/
def loopPage : Page :=
  { contents := [loopEntry], isTruncated := .text "true", nextMarker := none }

/-- A fetcher that answers every request with the same truncated page. -/
def loopFetch : Nat → Option String → Page := fun _ _ => loopPage

theorem loopFetch_step_next (s : CrawlState) :
    ∃ s2, step loopFetch "https://u/b" "b" none s = .next s2 :=
  ⟨_, rfl⟩

theorem loopFetch_crawl_aux :
    ∀ (f : Nat) (s : CrawlState),
      (crawlRun loopFetch "https://u/b" "b" none f s).isOut = true := by
  intro f
  induction f with
  | zero => intro s; rfl
  | succ f ih =>
    intro s
    obtain ⟨s2, h⟩ := loopFetch_step_next s
    simpa [crawlRun, h] using ih s2

/-- The crawl of bucket `b` under `loopFetch` with no page ceiling never
reaches a terminal state, whatever the fuel. -/
def loopCrawlDiverges : Prop :=
  ∀ f : Nat, (crawlRun loopFetch "https://u/b" "b" none f initState).isOut = true

/-- C2 counterexample: with no configured maximum page count, a fetcher that
always returns a truncated page with one entry (so a cursor is always
derivable) makes the per-bucket crawl loop run forever. -/
theorem crawl_nontermination_counterexample : loopCrawlDiverges :=
  fun f => loopFetch_crawl_aux f initState

/-- C10: a page whose `IsTruncated` element is absent, or present with
non-empty text whose lower-casing is not `true`, stops the crawl of the bucket
after that page; a further page is requested only when the element's text
lower-cases to `true`. -/
theorem truncation_gate :
    ∀ (fetch : Nat → Option String → Page) (url name : String) (mp : Option Nat)
      (s : CrawlState),
      ((fetch s.pageCount (reqParam s.marker)).isTruncated = .absent →
        ∃ s1, step fetch url name mp s = .stop s1 .notTruncated) ∧
      (∀ t, (fetch s.pageCount (reqParam s.marker)).isTruncated = .text t →
        t ≠ "" → pyLower t ≠ "true" →
        ∃ s1, step fetch url name mp s = .stop s1 .notTruncated) ∧
      (∀ s2, step fetch url name mp s = .next s2 →
        ∃ t, (fetch s.pageCount (reqParam s.marker)).isTruncated = .text t ∧
          pyLower t = "true") := by
  intro fetch url name mp s
  refine ⟨?_, ?_, ?_⟩
  · intro h
    have hstep : step fetch url name mp s =
        .stop (afterPage url name (fetch s.pageCount (reqParam s.marker)) s)
          .notTruncated := by
      unfold step
      rw [h]
      rfl
    exact ⟨_, hstep⟩
  · intro t h _ h3
    have hb : (pyLower t == "true") = false := by
      cases hbe : pyLower t == "true"
      · rfl
      · exact absurd (eq_of_beq hbe) h3
    have hstep : step fetch url name mp s =
        .stop (afterPage url name (fetch s.pageCount (reqParam s.marker)) s)
          .notTruncated := by
      unfold step
      rw [h]
      simp [computeTruncated, hb]
    exact ⟨_, hstep⟩
  · intro s2 h
    exact computeTruncated_true_elim (step_next_spec h).2.1

/-- A fetcher whose pages carry no `IsTruncated` element at all. -/
def absentTruncFetch : Nat → Option String → Page :=
  fun _ _ => { contents := [], isTruncated := .absent, nextMarker := none }

/-- Witness for C10: a page with no `IsTruncated` element stops the crawl. -/
theorem truncation_gate_witness :
    ∃ s1, step absentTruncFetch "u" "b" none initState = .stop s1 .notTruncated :=
  (truncation_gate absentTruncFetch "u" "b" none initState).1 (by decide)

/-- C7: for a truncated page the next cursor is the page's `NextMarker` when
present and non-empty, otherwise the `Key` of the page's last entry; a
continuing step carries exactly the derived cursor as its new marker. -/
theorem cursor_derivation :
    ∀ (fetch : Nat → Option String → Page) (url name : String) (mp : Option Nat)
      (s : CrawlState),
      (∀ t, (fetch s.pageCount (reqParam s.marker)).nextMarker = some t → t ≠ "" →
        deriveNextMarker (fetch s.pageCount (reqParam s.marker)) = some (some t)) ∧
      ((nmUsable (fetch s.pageCount (reqParam s.marker)).nextMarker = false →
        ∀ e, (fetch s.pageCount (reqParam s.marker)).contents.getLast? = some e →
        deriveNextMarker (fetch s.pageCount (reqParam s.marker)) = some (keyTextMarker e))) ∧
      (∀ s2, step fetch url name mp s = .next s2 →
        deriveNextMarker (fetch s.pageCount (reqParam s.marker)) = some s2.marker) := by
  intro fetch url name mp s
  refine ⟨?_, ?_, ?_⟩
  · intro t h ht
    simp [deriveNextMarker, nmUsable, h, ht]
  · intro h e he
    simp [deriveNextMarker, h, he]
  · intro s2 h
    exact (step_next_spec h).2.2.1

/-- The claim's example entries `a`, `b`. -/
def entryA : ContentsElem :=
  { key := some "a", lastModified := some "", etag := some "", size := some "1",
    storageClass := some "", ownerId := some "", ownerDisplayName := some "",
    typ := some "" }

def entryB : ContentsElem :=
  { key := some "b", lastModified := some "", etag := some "", size := some "2",
    storageClass := some "", ownerId := some "", ownerDisplayName := some "",
    typ := some "" }

/-- The claim's example page: truncated, no `NextMarker`, entries `a`, `b`. -/
def pageAB : Page :=
  { contents := [entryA, entryB], isTruncated := .text "true", nextMarker := none }

def abFetch : Nat → Option String → Page := fun _ _ => pageAB

/-- Witness for C7: on the example page the derived cursor is `b`. -/
theorem cursor_derivation_witness :
    deriveNextMarker pageAB = some (some "b") :=
  (cursor_derivation abFetch "u" "b" none initState).2.1 (by decide) entryB (by decide)

/-- C8: a truncated page with zero entries and no usable `NextMarker` stops
the crawl of the bucket at once — no further request is made, and the outcome
is an ordinary `finished` stop (reason `noProgress`), not a crash. -/
theorem no_progress_guard :
    ∀ (fetch : Nat → Option String → Page) (url name : String) (mp : Option Nat)
      (s : CrawlState),
      computeTruncated (fetch s.pageCount (reqParam s.marker)).isTruncated = some true →
      (fetch s.pageCount (reqParam s.marker)).contents = [] →
      nmUsable (fetch s.pageCount (reqParam s.marker)).nextMarker = false →
      ∃ s1, step fetch url name mp s = .stop s1 .noProgress ∧
        ∀ f, crawlRun fetch url name mp (f + 1) s = .finished s1 .noProgress := by
  intro fetch url name mp s h1 h2 h3
  have hd : deriveNextMarker (fetch s.pageCount (reqParam s.marker)) = none := by
    simp [deriveNextMarker, h3, h2]
  have hstep : step fetch url name mp s =
      .stop (afterPage url name (fetch s.pageCount (reqParam s.marker)) s) .noProgress := by
    unfold step
    rw [h1, hd]
  exact ⟨_, hstep, fun f => by simp [crawlRun, hstep]⟩

/-- A fetcher whose pages are truncated but empty with no `NextMarker`. -/
def emptyTruncFetch : Nat → Option String → Page :=
  fun _ _ => { contents := [], isTruncated := .text "true", nextMarker := none }

/-- Witness for C8: the defensive stop on a concrete inconsistent page. -/
theorem no_progress_guard_witness :
    ∃ s1, step emptyTruncFetch "u" "b" none initState = .stop s1 .noProgress ∧
      crawlRun emptyTruncFetch "u" "b" none 5 initState = .finished s1 .noProgress := by
  obtain ⟨s1, hs, hr⟩ :=
    no_progress_guard emptyTruncFetch "u" "b" none initState
      (by decide) (by decide) (by decide)
  exact ⟨s1, hs, hr 4⟩

end Entrails

namespace Entrails

/-! ## Grouping and summation lemmas -/

theorem dkeys_nodup {κ : Type} [DecidableEq κ] : ∀ l : List κ, (dkeys l).Nodup := by
  intro l
  induction l with
  | nil => exact List.nodup_nil
  | cons k t ih =>
    simp only [dkeys, List.nodup_cons]
    refine ⟨?_, ih.filter _⟩
    intro hmem
    rcases List.mem_filter.mp hmem with ⟨-, hk⟩
    simp at hk

theorem mem_dkeys {κ : Type} [DecidableEq κ] (a : κ) (l : List κ) :
    a ∈ dkeys l ↔ a ∈ l := by
  induction l with
  | nil => exact Iff.rfl
  | cons k t ih =>
    simp only [dkeys, List.mem_cons, List.mem_filter, ih, decide_eq_true_eq]
    by_cases hak : a = k <;> simp [hak]

theorem sum_map_add {κ M : Type} [AddCommMonoid M] (g h : κ → M) (ks : List κ) :
    (ks.map (fun k => g k + h k)).sum = (ks.map g).sum + (ks.map h).sum := by
  induction ks with
  | nil => simp
  | cons k t ih =>
    simp only [List.map_cons, List.sum_cons, ih]
    abel

theorem sum_map_indicator {κ M : Type} [DecidableEq κ] [AddCommMonoid M]
    (ks : List κ) (k0 : κ) (v : M) :
    ks.Nodup → k0 ∈ ks → (ks.map (fun k => if k0 = k then v else 0)).sum = v := by
  induction ks with
  | nil => intro _ hmem; cases hmem
  | cons k t ih =>
    intro hnd hmem
    rcases List.nodup_cons.mp hnd with ⟨hk, hndt⟩
    by_cases h0 : k0 = k
    · subst h0
      simp only [List.map_cons, List.sum_cons]
      have hz : (t.map (fun k => if k0 = k then v else 0)).sum = 0 := by
        apply List.sum_eq_zero
        intro x hx
        rcases List.mem_map.mp hx with ⟨k', hk', rfl⟩
        rw [if_neg]
        intro he
        exact hk (he ▸ hk')
      simp [hz]
    · have hmem' : k0 ∈ t := by
        rcases List.mem_cons.mp hmem with h | h
        · exact absurd h h0
        · exact h
      simp only [List.map_cons, List.sum_cons, if_neg h0, zero_add]
      exact ih hndt hmem'

theorem sum_filter_partition {α κ M : Type} [DecidableEq κ] [AddCommMonoid M]
    (f : α → κ) (w : α → M) (ks : List κ) (hnd : ks.Nodup) :
    ∀ l : List α, (∀ a ∈ l, f a ∈ ks) →
      (ks.map (fun k => ((l.filter (fun a => f a = k)).map w).sum)).sum
        = (l.map w).sum := by
  intro l
  induction l with
  | nil =>
    intro _
    rw [List.map_nil, List.sum_nil]
    apply List.sum_eq_zero
    intro x hx
    rcases List.mem_map.mp hx with ⟨k, -, rfl⟩
    simp
  | cons a t ih =>
    intro hcov
    have hca : f a ∈ ks := hcov a (List.mem_cons_self a t)
    have hcovt : ∀ x ∈ t, f x ∈ ks := fun x hx => hcov x (List.mem_cons_of_mem a hx)
    have hsplit : ∀ k, ((List.filter (fun x => f x = k) (a :: t)).map w).sum
        = (if f a = k then w a else 0) + ((t.filter (fun x => f x = k)).map w).sum := by
      intro k
      by_cases hfk : f a = k
      · simp [List.filter_cons, hfk]
      · simp [List.filter_cons, hfk]
    calc (ks.map fun k => ((List.filter (fun x => f x = k) (a :: t)).map w).sum).sum
        = (ks.map fun k =>
            (if f a = k then w a else 0)
              + ((t.filter (fun x => f x = k)).map w).sum).sum := by
          simp only [hsplit]
      _ = (ks.map fun k => if f a = k then w a else 0).sum
            + (ks.map fun k => ((t.filter (fun x => f x = k)).map w).sum).sum :=
          sum_map_add _ _ ks
      _ = w a + (t.map w).sum := by
          rw [sum_map_indicator ks (f a) (w a) hnd hca, ih hcovt]
      _ = ((a :: t).map w).sum := by simp

/-- The grouped sums add up to the total sum of the weights. -/
theorem groupSum_total {α κ M : Type} [DecidableEq κ] [AddCommMonoid M]
    (f : α → κ) (w : α → M) (l : List α) :
    ((groupSum f w l).map Prod.snd).sum = (l.map w).sum := by
  unfold groupSum
  rw [List.map_map]
  exact sum_filter_partition f w (dkeys (l.map f)) (dkeys_nodup _) l
    (fun a ha => (mem_dkeys _ _).mpr (List.mem_map_of_mem f ha))

/-- Every pair of a grouped table carries the filtered sum for its key. -/
theorem groupSum_mem {α κ M : Type} [DecidableEq κ] [AddCommMonoid M]
    {f : α → κ} {w : α → M} {l : List α} {k : κ} {v : M}
    (h : (k, v) ∈ groupSum f w l) :
    v = ((l.filter (fun a => f a = k)).map w).sum := by
  unfold groupSum at h
  rcases List.mem_map.mp h with ⟨k', -, heq⟩
  cases heq
  rfl

theorem perm_orderedInsertDesc {M : Type} [LinearOrder M] (x : String × M) :
    ∀ l : List (String × M), (orderedInsertDesc x l).Perm (x :: l) := by
  intro l
  induction l with
  | nil => exact List.Perm.refl _
  | cons y t ih =>
    unfold orderedInsertDesc
    by_cases h : y.2 ≤ x.2
    · simp only [if_pos h]
      exact List.Perm.refl _
    · simp only [if_neg h]
      exact (ih.cons y).trans (List.Perm.swap x y t)

theorem perm_sortDescBySnd {M : Type} [LinearOrder M] :
    ∀ l : List (String × M), (sortDescBySnd l).Perm l := by
  intro l
  induction l with
  | nil => exact List.Perm.refl _
  | cons x t ih =>
    unfold sortDescBySnd
    exact (perm_orderedInsertDesc x (sortDescBySnd t)).trans (ih.cons x)

theorem sum_snd_sortDescBySnd {M : Type} [LinearOrder M] [AddCommMonoid M]
    (l : List (String × M)) :
    ((sortDescBySnd l).map Prod.snd).sum = (l.map Prod.snd).sum :=
  ((perm_sortDescBySnd l).map Prod.snd).sum_eq

/-! ## String id lemmas for the sunburst node lists -/

theorem bucketId_inj {x b : String} : "bucket:" ++ x = "bucket:" ++ b ↔ x = b := by
  constructor
  · intro h
    have hd := congrArg String.data h
    rw [String.data_append, String.data_append] at hd
    exact String.ext (List.append_cancel_left hd)
  · intro h
    rw [h]

theorem bucketId_ne_root (b : String) : "bucket:" ++ b ≠ "root" := by
  intro h
  have hl := congrArg String.length h
  rw [String.length_append] at hl
  have h7 : "bucket:".length = 7 := rfl
  have h4 : "root".length = 4 := rfl
  omega

theorem empty_ne_bucketId (b : String) : "" ≠ "bucket:" ++ b := by
  intro h
  have hl := congrArg String.length h
  rw [String.length_append] at hl
  have h0 : "".length = 0 := rfl
  have h7 : "bucket:".length = 7 := rfl
  omega

end Entrails

namespace Entrails

/-! ## Sunburst child-sum lemmas -/

theorem filter_map_comm {α β : Type} (g : α → β) (p : β → Bool) (l : List α) :
    (l.map g).filter p = (l.filter (fun a => p (g a))).map g := by
  induction l with
  | nil => rfl
  | cons a t ih =>
    simp only [List.map_cons, List.filter_cons]
    by_cases h : p (g a)
    · simp [h, ih]
    · simp [h, ih]

theorem childSum_treeNodes_root {M : Type} [AddCommMonoid M] (L : String)
    (dfc : List ((String × String) × M)) :
    childSum (treeNodes L dfc) "root" = (dfc.map Prod.snd).sum := by
  unfold childSum treeNodes
  rw [List.filter_cons, List.filter_append]
  have h0 : (decide (("" : String) = "root")) = false := by decide
  rw [h0]
  have hb : ((bucketsOf dfc).map (fun p =>
      ({ id := "bucket:" ++ p.1, label := p.1, parent := "root", value := p.2 }
        : SNode M))).filter (fun n => n.parent = "root")
      = (bucketsOf dfc).map (fun p =>
        ({ id := "bucket:" ++ p.1, label := p.1, parent := "root", value := p.2 }
          : SNode M)) := by
    apply List.filter_eq_self.mpr
    intro n hn
    rcases List.mem_map.mp hn with ⟨p, -, rfl⟩
    simp
  have he : (dfc.map (fun p =>
      ({ id := p.1.1 ++ "|" ++ p.1.2, label := p.1.2,
         parent := "bucket:" ++ p.1.1, value := p.2 } : SNode M))).filter
        (fun n => n.parent = "root") = [] := by
    apply List.filter_eq_nil_iff.mpr
    intro n hn
    rcases List.mem_map.mp hn with ⟨p, -, rfl⟩
    simp [bucketId_ne_root]
  rw [hb, he, List.append_nil]
  simp only [Bool.false_eq_true, if_false]
  rw [List.map_map]
  have : (SNode.value ∘ fun p : String × M =>
      ({ id := "bucket:" ++ p.1, label := p.1, parent := "root", value := p.2 }
        : SNode M)) = Prod.snd := rfl
  rw [this]
  exact groupSum_total _ _ dfc

theorem childSum_treeNodes_bucket {M : Type} [AddCommMonoid M] (L b : String)
    (dfc : List ((String × String) × M)) :
    childSum (treeNodes L dfc) ("bucket:" ++ b)
      = ((dfc.filter (fun p => p.1.1 = b)).map Prod.snd).sum := by
  unfold childSum treeNodes
  rw [List.filter_cons, List.filter_append]
  have h0 : (decide (("" : String) = "bucket:" ++ b)) = false := by
    simp [empty_ne_bucketId b]
  rw [h0]
  have hb : ((bucketsOf dfc).map (fun p =>
      ({ id := "bucket:" ++ p.1, label := p.1, parent := "root", value := p.2 }
        : SNode M))).filter (fun n => n.parent = "bucket:" ++ b) = [] := by
    apply List.filter_eq_nil_iff.mpr
    intro n hn
    rcases List.mem_map.mp hn with ⟨p, -, rfl⟩
    simp only [decide_eq_true_eq]
    exact fun h => (bucketId_ne_root b) h.symm
  have he : (dfc.map (fun p =>
      ({ id := p.1.1 ++ "|" ++ p.1.2, label := p.1.2,
         parent := "bucket:" ++ p.1.1, value := p.2 } : SNode M))).filter
        (fun n => n.parent = "bucket:" ++ b)
      = (dfc.filter (fun p => p.1.1 = b)).map (fun p =>
        ({ id := p.1.1 ++ "|" ++ p.1.2, label := p.1.2,
           parent := "bucket:" ++ p.1.1, value := p.2 } : SNode M)) := by
    rw [filter_map_comm]
    congr 1
    apply List.filter_congr
    intro p _
    simp only [decide_eq_true_eq]
    by_cases h : p.1.1 = b
    · simp [h, bucketId_inj]
    · simp [h, bucketId_inj]
  rw [hb, he]
  simp only [Bool.false_eq_true, if_false, List.nil_append]
  rw [List.map_map]
  rfl

end Entrails

namespace Entrails

theorem sum_map_one {α : Type} (l : List α) :
    (l.map (fun _ => (1 : Nat))).sum = l.length := by
  induction l with
  | nil => rfl
  | cons a t ih => simp [ih, Nat.add_comm]

theorem treeNodes_head {M : Type} [AddCommMonoid M] (L : String)
    (dfc : List ((String × String) × M)) :
    (treeNodes L dfc).head? = some
      { id := "root", label := L, parent := "",
        value := childSum (treeNodes L dfc) "root" } := by
  rw [childSum_treeNodes_root]
  rfl

theorem treeNodes_bucket_values {M : Type} [AddCommMonoid M] (L : String)
    (dfc : List ((String × String) × M)) {n : SNode M}
    (hmem : n ∈ treeNodes L dfc) (hpar : n.parent = "root") :
    n.value = childSum (treeNodes L dfc) n.id := by
  rcases List.mem_cons.mp hmem with hroot | hmem2
  · rw [hroot] at hpar
    exact absurd hpar (by decide : ¬("" : String) = "root")
  · rcases List.mem_append.mp hmem2 with hb | he
    · rcases List.mem_map.mp hb with ⟨p, hp, rfl⟩
      cases p with
      | mk k v =>
        rw [childSum_treeNodes_bucket]
        exact groupSum_mem hp
    · rcases List.mem_map.mp he with ⟨p, -, rfl⟩
      exact absurd hpar (bucketId_ne_root p.1.1)

theorem countFlow_values_sum (records : List CsvRecord) :
    (countFlow records).values.sum = records.length := by
  show ((sortDescBySnd (extCounts records)).map Prod.snd).sum = records.length
  rw [sum_snd_sortDescBySnd]
  unfold extCounts
  rw [groupSum_total]
  exact sum_map_one records

theorem byteFlow_values_sum (records : List CsvRecord) :
    (byteFlow records).values.sum = (records.map (fun r => parseSize r.size)).sum := by
  show ((sortDescBySnd (extBytes records)).map Prod.snd).sum = _
  rw [sum_snd_sortDescBySnd]
  unfold extBytes
  rw [groupSum_total]

/-- C1: in both sunburst trees the root's value is the sum of its children's
values and every bucket node's value is the sum of its children's values, and
the edge values of the two sankeys sum to the global record count and the
global byte total. -/
theorem artifact_totals :
    ∀ (records : List CsvRecord) (topN : Option Nat),
      (countTreeNodes records topN).head? = some
        { id := "root", label := "All files", parent := "",
          value := childSum (countTreeNodes records topN) "root" } ∧
      (∀ n ∈ countTreeNodes records topN, n.parent = "root" →
        n.value = childSum (countTreeNodes records topN) n.id) ∧
      (byteTreeNodes records).head? = some
        { id := "root", label := "All bytes", parent := "",
          value := childSum (byteTreeNodes records) "root" } ∧
      (∀ n ∈ byteTreeNodes records, n.parent = "root" →
        n.value = childSum (byteTreeNodes records) n.id) ∧
      (countFlow records).values.sum = records.length ∧
      (byteFlow records).values.sum = (records.map (fun r => parseSize r.size)).sum := by
  intro records topN
  exact ⟨treeNodes_head _ _,
    fun n hmem hpar => treeNodes_bucket_values _ _ hmem hpar,
    treeNodes_head _ _,
    fun n hmem hpar => treeNodes_bucket_values _ _ hmem hpar,
    countFlow_values_sum records,
    byteFlow_values_sum records⟩

/-- Two records in one bucket sharing the extension `.txt`. -/
def recs2 : List CsvRecord :=
  [{ bucket_name := "b1", key := some "a.txt", size := some "5" },
   { bucket_name := "b1", key := some "b.TXT", size := some "7" }]

/-- Witness for C1: the bucket node of `recs2` satisfies the child-sum
invariant of the count sunburst. -/
theorem artifact_totals_witness :
    ∃ n ∈ countTreeNodes recs2 none, n.parent = "root" ∧
      n.value = childSum (countTreeNodes recs2 none) n.id := by
  refine ⟨{ id := "bucket:b1", label := "b1", parent := "root", value := 2 },
    ?_, rfl, ?_⟩
  · decide
  · exact (artifact_totals recs2 none).2.1 _ (by decide) rfl

end Entrails

namespace Entrails

theorem groupSum_fst_mem {α κ M : Type} [DecidableEq κ] [AddCommMonoid M]
    {f : α → κ} {w : α → M} {l : List α} {p : κ × M}
    (h : p ∈ groupSum f w l) : p.1 ∈ l.map f := by
  unfold groupSum at h
  rcases List.mem_map.mp h with ⟨k, hk, heq⟩
  cases heq
  exact (mem_dkeys _ _).mp hk

/-- The claim's example record set: extension counts
`{.csv: 10, .json: 5, .tif: 3, .txt: 1}` in one bucket. -/
def ex19 : List CsvRecord :=
  List.replicate 10 { bucket_name := "b", key := some "f.csv", size := some "1" } ++
  List.replicate 5 { bucket_name := "b", key := some "f.json", size := some "1" } ++
  List.replicate 3 { bucket_name := "b", key := some "f.tif", size := some "1" } ++
  List.replicate 1 { bucket_name := "b", key := some "f.txt", size := some "1" }

/-- C5 counterexample: with `N = 2` requested on the example record set, the
CountFlow sankey still carries `.tif` and `.txt` as their own nodes and no
`<other>` node — the collapsing is not applied before its construction. -/
theorem topn_flow_uncollapsed_counterexample :
    ((visualizeArtifacts ex19 (some 2)).2.1).labels
        = ["Total files", ".csv", ".json", ".tif", ".txt"] ∧
      ".tif" ∈ ((visualizeArtifacts ex19 (some 2)).2.1).labels ∧
      "<other>" ∉ ((visualizeArtifacts ex19 (some 2)).2.1).labels := by
  decide

/-- C5 amended: top-N collapsing merges extensions outside the top N into
`<other>` with counts summed — the collapsed table keeps the total record
count and only labels from the top-N set or `<other>` — but it is applied only
to the count table feeding the CountTree; the CountFlow, ByteFlow and ByteTree
are built from the uncollapsed records.  On the example counts with `N = 2`
the collapsed extension groups are `{.csv: 10, .json: 5, <other>: 4}`. -/
theorem topn_collapse_scope :
    (∀ (records : List CsvRecord) (n : Nat),
      ((dfCountsOf records (some n)).map Prod.snd).sum = records.length) ∧
    (∀ (records : List CsvRecord) (n : Nat),
      ∀ p ∈ dfCountsOf records (some n),
        p.1.2 ∈ topExts records n ∨ p.1.2 = "<other>") ∧
    (∀ (records : List CsvRecord) (topN : Option Nat),
      visualizeArtifacts records topN =
        (countTreeNodes records topN, countFlow records, byteFlow records,
          byteTreeNodes records)) ∧
    groupSum (fun p => p.1.2) Prod.snd (dfCountsOf ex19 (some 2))
      = [(".csv", 10), (".json", 5), ("<other>", 4)] := by
  refine ⟨?_, ?_, fun _ _ => rfl, by decide⟩
  · intro records n
    show ((collapseCounts (dfCountsBase records) (topExts records n)).map
      Prod.snd).sum = _
    unfold collapseCounts
    rw [groupSum_total, List.map_map]
    have hsnd : (Prod.snd ∘ fun p : (String × String) × Nat =>
        if p.1.2 ∈ topExts records n then p else ((p.1.1, "<other>"), p.2))
        = Prod.snd := by
      funext p
      by_cases h : p.1.2 ∈ topExts records n <;> simp [h]
    rw [hsnd]
    unfold dfCountsBase
    rw [groupSum_total]
    exact sum_map_one records
  · intro records n p hp
    have h1 := groupSum_fst_mem hp
    rw [List.map_map] at h1
    rcases List.mem_map.mp h1 with ⟨q, -, heq⟩
    by_cases h : q.1.2 ∈ topExts records n
    · left
      rw [← heq]
      simp only [Function.comp_apply, if_pos h]
      exact h
    · right
      rw [← heq]
      simp [if_neg h]

/-- Witness for C5 amended: the collapsed table's `.csv` row keeps its own
label, which is in the top-2 set. -/
theorem topn_collapse_scope_witness :
    ((("b", ".csv"), 10) : (String × String) × Nat).1.2 ∈ topExts ex19 2 ∨
      ((("b", ".csv"), 10) : (String × String) × Nat).1.2 = "<other>" :=
  topn_collapse_scope.2.1 ex19 2 (("b", ".csv"), 10) (by decide)

end Entrails
